import Mathlib

/-!
Verification of the decision-tree engine of `src/tree.cpp` (DisneyAkinator).

The C++ core consists of:
  * `Question` records (id, text, positive/negative ID sets),
  * `QuestionTree::buildTree` — recursive greedy construction of a binary
    decision tree over a remaining set of character IDs,
  * the session operations `getCharacter` and `setAnswer` acting on the
    private members `root : Question*` and `characters : set<int>`.

The embedding below follows the source line by line:
  * `std::set<int>` becomes `Finset ℤ` (iteration order of `std::set` is
    ascending, so `*s.begin()` is `Finset.min'`);
  * a possibly-null `Question*` tree pointer becomes the inductive `QTreeP`
    with a `null` constructor;
  * the selection loop over `vector<Question *>` becomes `selectAux`, which
    carries the loop state `(best_question, min_difference)`; the chosen
    record is tracked by its index in the vector.  The C++ removes the
    winner with `q != best_question`, a pointer-identity test; the pool's
    entries are pairwise-distinct heap allocations (one `new` per CSV row),
    so this removes exactly the chosen element, modelled as `List.eraseIdx`
    at the chosen index;
  * `int` arithmetic is modelled exactly by `ℤ`; the only machine-width
    fact the source relies on is the initial `INT_MAX` minimum, kept as the
    literal 2147483647.  The casts `(int)pos_ids.size()` are exact whenever
    the set has fewer than 2^31 elements, which the card hypotheses of the
    relevant theorems record;
  * recursion in `buildTree` strictly shrinks the question vector, so the
    fuel-indexed `buildTreeF` with fuel `pool.length + 1` computes the same
    tree as the C++ recursion; fuel-irrelevance is proved below
    (`buildTreeF_fuel`), making the fuel a pure termination device.
-/

/-- One question record from the CSV: id, text, and the character-ID sets
consistent with a yes (positive) and a no (negative) answer.
Mirrors `class Question`'s data fields in `src/tree.cpp`. -/
structure Question where
  q_id : ℤ
  text : String
  positive_ids : Finset ℤ
  negative_ids : Finset ℤ
deriving DecidableEq

/-- Placeholder record used only as the default of `List.getD`; every
access is guarded by an in-bounds proof. -/
def qdefault : Question := ⟨0, "", ∅, ∅⟩

/-- The C++ `INT_MAX`, the initial value of `min_difference`. -/
def INT_MAX : ℤ := 2147483647

/-- The balance score of record `q` against the remaining set: the C++
`abs((int)pos_ids.size() - (int)neg_ids.size())` where `pos_ids`/`neg_ids`
are the intersections of `remaining_ids` with the record's sets. -/
def balance (remaining_ids : Finset ℤ) (q : Question) : ℤ :=
  |((remaining_ids ∩ q.positive_ids).card : ℤ) -
    ((remaining_ids ∩ q.negative_ids).card : ℤ)|

/-- The selection loop of `buildTree` (`for (auto *q : questions) ...`):
`i` is the index of the head of the unprocessed suffix, `best` the index of
`best_question` (none while it is still `nullptr`), `minD` the current
`min_difference`.  A record is kept only on a strict improvement
(`difference < min_difference`), so ties keep the earlier record. -/
def selectAux (remaining_ids : Finset ℤ) :
    List Question → ℕ → Option ℕ → ℤ → Option ℕ × ℤ
  | [], _, best, minD => (best, minD)
  | q :: qs, i, best, minD =>
    if balance remaining_ids q < minD then
      selectAux remaining_ids qs (i + 1) (some i) (balance remaining_ids q)
    else
      selectAux remaining_ids qs (i + 1) best minD

/-- Index of the record held by `best_question` after the scoring loop,
starting from `best_question = nullptr`, `min_difference = INT_MAX`. -/
def selectBest (remaining_ids : Finset ℤ) (pool : List Question) : Option ℕ :=
  (selectAux remaining_ids pool 0 none INT_MAX).1

/-- A possibly-null pointer to a tree node (`Question*` used as a tree
node).  `node` carries the six data fields of `class Question`; `null`
is `nullptr`. -/
inductive QTreeP where
  | null : QTreeP
  | node (q_id : ℤ) (text : String) (positive_ids negative_ids : Finset ℤ)
      (left right : QTreeP) : QTreeP
deriving DecidableEq

/-- Whether a pointer is `nullptr`. -/
def isNull : QTreeP → Bool
  | .null => true
  | .node _ _ _ _ _ _ => false

/-- A leaf in the data model's sense: sentinel question id `-1` and both
children null. -/
def isLeaf : QTreeP → Bool
  | .node i _ _ _ .null .null => i == -1
  | _ => false

/-- Every node in the tree has either both children null or both children
non-null (no one-child internal node). -/
def noLoneChild : QTreeP → Bool
  | .null => true
  | .node _ _ _ _ l r => (isNull l == isNull r) && noLoneChild l && noLoneChild r

/-- Height of a tree counted in nodes (`null` has height 0). -/
def qheight : QTreeP → ℕ
  | .null => 0
  | .node _ _ _ _ l r => max (qheight l) (qheight r) + 1

/-- Fuel-indexed form of `QuestionTree::buildTree`.  The body under
`fuel + 1` is the C++ function verbatim: the `|remaining| == 1` check, the
empty-pool check, the scoring loop (`selectBest`), the defensive
`!best_question` branch, and the node construction copying the winning
record's full fields and recursing on the intersections with the winner
removed from the pool.  Fuel `pool.length + 1` always suffices
(`buildTreeF_fuel` below), so `fuel = 0` is unreachable from `buildTree`. -/
def buildTreeF : ℕ → Finset ℤ → List Question → QTreeP
  | 0, _, _ => .null
  | _fuel + 1, remaining_ids, questions =>
    if h1 : remaining_ids.card = 1 then
      .node (-1)
        ("Character identified: " ++
          toString (remaining_ids.min' (Finset.card_pos.mp (by omega))))
        ∅ ∅ .null .null
    else if questions = [] then
      .node (-1) "No more questions. Unable to identify." ∅ ∅ .null .null
    else
      (selectBest remaining_ids questions).elim
        (.node (-1) "Unable to further differentiate." ∅ ∅ .null .null)
        (fun i =>
          .node (questions.getD i qdefault).q_id (questions.getD i qdefault).text
            (questions.getD i qdefault).positive_ids
            (questions.getD i qdefault).negative_ids
            (buildTreeF _fuel
              (remaining_ids ∩ (questions.getD i qdefault).positive_ids)
              (questions.eraseIdx i))
            (buildTreeF _fuel
              (remaining_ids ∩ (questions.getD i qdefault).negative_ids)
              (questions.eraseIdx i)))

/-- `QuestionTree::buildTree`. -/
def buildTree (remaining_ids : Finset ℤ) (questions : List Question) : QTreeP :=
  buildTreeF (questions.length + 1) remaining_ids questions

/-- The literal member initializer of `QuestionTree::characters`:
IDs 1 through 32. -/
def fullCharacters : Finset ℤ :=
  {1, 2, 3, 4, 5, 6, 7, 8, 9, 10, 11, 12, 13, 14, 15, 16,
   17, 18, 19, 20, 21, 22, 23, 24, 25, 26, 27, 28, 29, 30, 31, 32}

/-- The mutable members of one `QuestionTree` session: the current tree
position `root` and the remaining-candidate set `characters`. -/
structure GameState where
  root : QTreeP
  characters : Finset ℤ
deriving DecidableEq

/-- The `QuestionTree` constructor: builds the tree over the full universe
and starts `characters` at the full universe. -/
def initState (questions : List Question) : GameState :=
  ⟨buildTree fullCharacters questions, fullCharacters⟩

/-- `QuestionTree::setAnswer`.  On `true`, `characters` loses the current
root's `negative_ids` and the position descends to `root->left`; on
`false`, it loses `positive_ids` and descends to `root->right`.  The set
update always reads the pre-descent root.  A null `root` would be a null
dereference in the C++ (undefined), modelled as `none`. -/
def setAnswer (st : GameState) (answer : Bool) : Option GameState :=
  match st.root with
  | .null => none
  | .node _ _ pos neg l r =>
    if answer then
      some ⟨l, st.characters \ neg⟩
    else
      some ⟨r, st.characters \ pos⟩

/-- `QuestionTree::getCharacter`, reduced to the ID it hands to the
identity resolver (`readCharacterByID`).  The `characters.size() > 1`
branch of the C++ is `return;` inside a function returning `Character` —
it produces no value (ill-formed C++), modelled as `none`.  The
`size() < 1` branch resolves the sentinel ID `0`; the `size() == 1` branch
resolves `*characters.begin()`, the least remaining ID. -/
def getCharacter (st : GameState) : Option ℤ :=
  if 1 < st.characters.card then
    none
  else if h : st.characters.card < 1 then
    some 0
  else
    some (st.characters.min' (Finset.card_pos.mp (by omega)))

/-! ## Basic facts about the balance score -/

/-- Balance scores are non-negative. -/
lemma balance_nonneg (rem : Finset ℤ) (q : Question) : 0 ≤ balance rem q :=
  abs_nonneg _

/-- A balance score never exceeds the size of the remaining set, because
both intersections are subsets of it. -/
lemma balance_le_card (rem : Finset ℤ) (q : Question) :
    balance rem q ≤ (rem.card : ℤ) := by
  unfold balance
  have h1 : ((rem ∩ q.positive_ids).card : ℤ) ≤ (rem.card : ℤ) := by
    exact_mod_cast Finset.card_le_card Finset.inter_subset_left
  have h2 : ((rem ∩ q.negative_ids).card : ℤ) ≤ (rem.card : ℤ) := by
    exact_mod_cast Finset.card_le_card Finset.inter_subset_left
  have h3 : (0 : ℤ) ≤ ((rem ∩ q.positive_ids).card : ℤ) := Int.natCast_nonneg _
  have h4 : (0 : ℤ) ≤ ((rem ∩ q.negative_ids).card : ℤ) := Int.natCast_nonneg _
  rw [abs_sub_le_iff]
  omega

/-- Against an empty remaining set every record scores 0. -/
lemma balance_empty (q : Question) : balance ∅ q = 0 := by
  simp [balance]

/-! ## Characterization of the selection loop -/

/-- Invariant of the scoring loop: a complete run either leaves the
accumulator untouched (when no score beats the incoming minimum), or ends
at the first index whose score strictly beats everything before it and is
a global minimum of the scanned suffix. -/
lemma selectAux_spec (rem : Finset ℤ) (qs : List Question) :
    ∀ (i : ℕ) (best : Option ℕ) (minD : ℤ),
      (selectAux rem qs i best minD = (best, minD) ∧
        ∀ k, k < qs.length → minD ≤ balance rem (qs.getD k qdefault)) ∨
      (∃ k, k < qs.length ∧
        selectAux rem qs i best minD =
          (some (i + k), balance rem (qs.getD k qdefault)) ∧
        balance rem (qs.getD k qdefault) < minD ∧
        (∀ j, j < k → balance rem (qs.getD k qdefault) <
          balance rem (qs.getD j qdefault)) ∧
        (∀ j, j < qs.length → balance rem (qs.getD k qdefault) ≤
          balance rem (qs.getD j qdefault))) := by
  induction qs with
  | nil =>
    intro i best minD
    left
    exact ⟨rfl, fun k hk => absurd hk (by simp)⟩
  | cons q qs ih =>
    intro i best minD
    by_cases hlt : balance rem q < minD
    · have h1 : selectAux rem (q :: qs) i best minD =
          selectAux rem qs (i + 1) (some i) (balance rem q) := by
        simp [selectAux, hlt]
      rcases ih (i + 1) (some i) (balance rem q) with
        ⟨heq, hall⟩ | ⟨k, hk, heq, hklt, hfirst, hmin⟩
      · right
        refine ⟨0, by simp, ?_, ?_, ?_, ?_⟩
        · rw [h1, heq]; simp
        · simpa using hlt
        · intro j hj; omega
        · intro j hj
          cases j with
          | zero => simp
          | succ j' =>
            rw [List.getD_cons_zero, List.getD_cons_succ]
            exact hall j' (by simp at hj; omega)
      · right
        refine ⟨k + 1, by simp; omega, ?_, ?_, ?_, ?_⟩
        · have harith : i + 1 + k = i + (k + 1) := by omega
          rw [h1, heq, harith, List.getD_cons_succ]
        · rw [List.getD_cons_succ]; exact lt_trans hklt hlt
        · intro j hj
          cases j with
          | zero =>
            rw [List.getD_cons_succ, List.getD_cons_zero]
            exact hklt
          | succ j' =>
            rw [List.getD_cons_succ, List.getD_cons_succ]
            exact hfirst j' (by omega)
        · intro j hj
          cases j with
          | zero =>
            rw [List.getD_cons_succ, List.getD_cons_zero]
            exact le_of_lt hklt
          | succ j' =>
            rw [List.getD_cons_succ, List.getD_cons_succ]
            exact hmin j' (by simp at hj; omega)
    · have h1 : selectAux rem (q :: qs) i best minD =
          selectAux rem qs (i + 1) best minD := by
        simp [selectAux, hlt]
      push_neg at hlt
      rcases ih (i + 1) best minD with
        ⟨heq, hall⟩ | ⟨k, hk, heq, hklt, hfirst, hmin⟩
      · left
        refine ⟨by rw [h1, heq], ?_⟩
        intro k hk
        cases k with
        | zero => rw [List.getD_cons_zero]; exact hlt
        | succ k' =>
          rw [List.getD_cons_succ]
          exact hall k' (by simp at hk; omega)
      · right
        refine ⟨k + 1, by simp; omega, ?_, ?_, ?_, ?_⟩
        · have harith : i + 1 + k = i + (k + 1) := by omega
          rw [h1, heq, harith, List.getD_cons_succ]
        · rw [List.getD_cons_succ]; exact hklt
        · intro j hj
          cases j with
          | zero =>
            rw [List.getD_cons_succ, List.getD_cons_zero]
            exact lt_of_lt_of_le hklt hlt
          | succ j' =>
            rw [List.getD_cons_succ, List.getD_cons_succ]
            exact hfirst j' (by omega)
        · intro j hj
          cases j with
          | zero =>
            rw [List.getD_cons_succ, List.getD_cons_zero]
            exact le_trans (le_of_lt hklt) hlt
          | succ j' =>
            rw [List.getD_cons_succ, List.getD_cons_succ]
            exact hmin j' (by simp at hj; omega)

/-- A selected index is always in bounds of the pool. -/
lemma selectBest_lt (rem : Finset ℤ) (pool : List Question) (i : ℕ)
    (h : selectBest rem pool = some i) : i < pool.length := by
  unfold selectBest at h
  rcases selectAux_spec rem pool 0 none INT_MAX with
    ⟨heq, _⟩ | ⟨k, hk, heq, _, _, _⟩
  · rw [heq] at h; simp at h
  · rw [heq] at h
    simp at h
    omega

/-! ## Unfolding lemmas for the tree builder -/

/-- The fuel argument of `buildTreeF` is irrelevant as long as it exceeds
the pool length: the recursion strictly shrinks the pool, so it bottoms
out before the fuel does.  This is exactly the termination argument of the
C++ recursion. -/
lemma buildTreeF_fuel (f₁ : ℕ) :
    ∀ (f₂ : ℕ) (rem : Finset ℤ) (pool : List Question),
      pool.length < f₁ → pool.length < f₂ →
      buildTreeF f₁ rem pool = buildTreeF f₂ rem pool := by
  induction f₁ with
  | zero => intro f₂ rem pool h1 _; omega
  | succ f ih =>
    intro f₂ rem pool h1 h2
    cases f₂ with
    | zero => omega
    | succ g =>
      simp only [buildTreeF]
      by_cases hc : rem.card = 1
      · rw [dif_pos hc, dif_pos hc]
      · rw [dif_neg hc, dif_neg hc]
        by_cases hp : pool = []
        · rw [if_pos hp, if_pos hp]
        · rw [if_neg hp, if_neg hp]
          rcases hsel : selectBest rem pool with _ | i
          · rfl
          · simp only [Option.elim_some]
            have hi := selectBest_lt rem pool i hsel
            have hlen := List.length_eraseIdx_add_one hi
            have e1 : buildTreeF f
                  (rem ∩ (pool.getD i qdefault).positive_ids) (pool.eraseIdx i) =
                buildTreeF g
                  (rem ∩ (pool.getD i qdefault).positive_ids) (pool.eraseIdx i) :=
              ih g _ _ (by omega) (by omega)
            have e2 : buildTreeF f
                  (rem ∩ (pool.getD i qdefault).negative_ids) (pool.eraseIdx i) =
                buildTreeF g
                  (rem ∩ (pool.getD i qdefault).negative_ids) (pool.eraseIdx i) :=
              ih g _ _ (by omega) (by omega)
            rw [e1, e2]

/-- Any fuel above the pool length computes `buildTree`. -/
lemma buildTreeF_eq_buildTree {f : ℕ} (rem : Finset ℤ) (pool : List Question)
    (h : pool.length < f) : buildTreeF f rem pool = buildTree rem pool :=
  buildTreeF_fuel f (pool.length + 1) rem pool h (by omega)

/-- First terminal case of `buildTree`: a singleton remaining set yields
the identified leaf, whatever the pool is. -/
lemma buildTree_singleton (x : ℤ) (pool : List Question) :
    buildTree {x} pool =
      .node (-1) ("Character identified: " ++ toString x) ∅ ∅ .null .null := by
  unfold buildTree
  simp only [buildTreeF]
  rw [dif_pos (Finset.card_singleton x)]
  simp [Finset.min'_singleton]

/-- Second terminal case of `buildTree`: an empty pool (and non-singleton
remaining set) yields the no-more-questions leaf. -/
lemma buildTree_noQuestions (rem : Finset ℤ) (h : rem.card ≠ 1) :
    buildTree rem [] =
      .node (-1) "No more questions. Unable to identify." ∅ ∅ .null .null := by
  unfold buildTree
  simp only [buildTreeF]
  rw [dif_neg h]
  simp

/-- Non-terminal step of `buildTree`: with a selected index `i`, the node
copies record `i`'s full fields and recurses on the two intersections with
record `i` removed from the pool. -/
lemma buildTree_step (rem : Finset ℤ) (pool : List Question) (i : ℕ)
    (h1 : rem.card ≠ 1) (h2 : pool ≠ []) (h3 : selectBest rem pool = some i) :
    buildTree rem pool =
      .node (pool.getD i qdefault).q_id (pool.getD i qdefault).text
        (pool.getD i qdefault).positive_ids (pool.getD i qdefault).negative_ids
        (buildTree (rem ∩ (pool.getD i qdefault).positive_ids) (pool.eraseIdx i))
        (buildTree (rem ∩ (pool.getD i qdefault).negative_ids) (pool.eraseIdx i)) := by
  have hi := selectBest_lt rem pool i h3
  have hlen := List.length_eraseIdx_add_one hi
  conv_lhs => rw [buildTree]
  simp only [buildTreeF]
  rw [dif_neg h1, if_neg h2, h3]
  simp only [Option.elim_some]
  rw [buildTreeF_eq_buildTree _ _ (by omega : (pool.eraseIdx i).length < pool.length),
    buildTreeF_eq_buildTree _ _ (by omega : (pool.eraseIdx i).length < pool.length)]

/-- `buildTreeF` with positive fuel never returns the null pointer: every
branch of the C++ function returns a freshly allocated node. -/
lemma buildTreeF_ne_null (f : ℕ) (hf : 0 < f) (rem : Finset ℤ)
    (pool : List Question) : buildTreeF f rem pool ≠ .null := by
  cases f with
  | zero => omega
  | succ g =>
    simp only [buildTreeF]
    by_cases h1 : rem.card = 1
    · rw [dif_pos h1]; simp
    · rw [dif_neg h1]
      by_cases h2 : pool = []
      · rw [if_pos h2]; simp
      · rw [if_neg h2]
        rcases hsel : selectBest rem pool with _ | i
        · simp
        · simp

/-- A non-null pointer is not `isNull`. -/
lemma isNull_eq_false {t : QTreeP} (h : t ≠ .null) : isNull t = false := by
  cases t with
  | null => exact absurd rfl h
  | node a b c d l r => rfl

/-- Every tree produced by the builder has no one-child internal node:
child pointers are either both null (the leaf constructors) or both the
result of a recursive build (never null). -/
lemma noLoneChild_buildTreeF (f : ℕ) :
    ∀ (rem : Finset ℤ) (pool : List Question), pool.length < f →
      noLoneChild (buildTreeF f rem pool) = true := by
  induction f with
  | zero => intro rem pool h; omega
  | succ g ih =>
    intro rem pool h
    simp only [buildTreeF]
    by_cases h1 : rem.card = 1
    · rw [dif_pos h1]; rfl
    · rw [dif_neg h1]
      by_cases h2 : pool = []
      · rw [if_pos h2]; rfl
      · rw [if_neg h2]
        rcases hsel : selectBest rem pool with _ | i
        · rfl
        · simp only [Option.elim_some]
          have hi := selectBest_lt rem pool i hsel
          have hlen := List.length_eraseIdx_add_one hi
          have hrest : (pool.eraseIdx i).length < g := by omega
          simp only [noLoneChild]
          rw [isNull_eq_false (buildTreeF_ne_null g (by omega) _ _),
            isNull_eq_false (buildTreeF_ne_null g (by omega) _ _),
            ih (rem ∩ (pool.getD i qdefault).positive_ids) _ hrest,
            ih (rem ∩ (pool.getD i qdefault).negative_ids) _ hrest]
          rfl

/-- Height bound: the builder's recursion depth is limited by the pool
length, since each non-terminal step removes one record. -/
lemma qheight_buildTreeF (f : ℕ) :
    ∀ (rem : Finset ℤ) (pool : List Question), pool.length < f →
      qheight (buildTreeF f rem pool) ≤ pool.length + 1 := by
  induction f with
  | zero => intro rem pool h; omega
  | succ g ih =>
    intro rem pool h
    simp only [buildTreeF]
    by_cases h1 : rem.card = 1
    · rw [dif_pos h1]; simp [qheight]
    · rw [dif_neg h1]
      by_cases h2 : pool = []
      · rw [if_pos h2]; simp [qheight]
      · rw [if_neg h2]
        rcases hsel : selectBest rem pool with _ | i
        · simp [qheight]
        · simp only [Option.elim_some]
          have hi := selectBest_lt rem pool i hsel
          have hlen := List.length_eraseIdx_add_one hi
          have hrest : (pool.eraseIdx i).length < g := by omega
          have hl := ih (rem ∩ (pool.getD i qdefault).positive_ids)
            (pool.eraseIdx i) hrest
          have hr := ih (rem ∩ (pool.getD i qdefault).negative_ids)
            (pool.eraseIdx i) hrest
          simp only [qheight]
          exact Nat.succ_le_succ (le_trans (Nat.max_le.mpr ⟨hl, hr⟩) (by omega))

/-! ## Session-step helper -/

/-- Behaviour of `setAnswer` at any non-null root. -/
lemma setAnswer_node (st : GameState) (i : ℤ) (t : String)
    (pos neg : Finset ℤ) (l r : QTreeP) (h : st.root = .node i t pos neg l r) :
    setAnswer st true = some ⟨l, st.characters \ neg⟩ ∧
    setAnswer st false = some ⟨r, st.characters \ pos⟩ := by
  unfold setAnswer
  rw [h]
  exact ⟨rfl, rfl⟩

/-- On an empty remaining set every record scores 0, so the very first
record is kept by the loop and never displaced (a later 0 is not a strict
improvement). -/
lemma selectBest_empty (pool : List Question) (hp : pool ≠ []) :
    selectBest (∅ : Finset ℤ) pool = some 0 := by
  rcases pool with _ | ⟨q, qs⟩
  · exact absurd rfl hp
  · unfold selectBest
    have h1 : selectAux ∅ (q :: qs) 0 none INT_MAX =
        selectAux ∅ qs 1 (some 0) 0 := by
      simp only [selectAux, balance_empty]
      rw [if_pos (by norm_num [INT_MAX])]
    rw [h1]
    rcases selectAux_spec ∅ qs 1 (some 0) 0 with
      ⟨heq, _⟩ | ⟨k, _, _, hklt, _, _⟩
    · rw [heq]
    · exfalso
      have := balance_nonneg ∅ (qs.getD k qdefault)
      omega

/-! ## Concrete data for witnesses -/

/-- Sample record splitting {1,2,3,4} evenly (balance score 0). -/
def qA : Question := ⟨1, "Does it wear a crown?", {1, 2}, {3, 4}⟩

/-- Sample record splitting {1,2,3,4} unevenly (balance score 2). -/
def qB : Question := ⟨2, "Is it a mouse?", {1}, {2, 3, 4}⟩

/-- Sample record whose sets do not cover ID 3. -/
def q1ex : Question := ⟨7, "Is it character 1?", {1}, {2}⟩

/-- A terminal leaf used in the sample session states. -/
def leafId1 : QTreeP := .node (-1) "Character identified: 1" ∅ ∅ .null .null

/-- Sample session positioned at an internal node over {1,2,3,4}. -/
def st0 : GameState :=
  ⟨.node 1 "Does it wear a crown?" {1, 2} {3, 4} leafId1 leafId1, {1, 2, 3, 4}⟩

/-- The state `st0` reaches on a yes answer. -/
def stYes : GameState := ⟨leafId1, ({1, 2, 3, 4} : Finset ℤ) \ {3, 4}⟩

/-! ## Claim theorems -/

/-- C1: in the selection step (reached with more than one remaining
candidate and a non-empty pool, sized realistically below `INT_MAX`),
every record is scored by the absolute difference of the intersection
sizes, and the chosen record is the first one, in pool order, whose score
strictly beats every score before it: it is a global minimum, and every
earlier record scores strictly worse. -/
theorem selection_first_strict_min (rem : Finset ℤ) (pool : List Question)
    (_hrem : 1 < rem.card) (hp : pool ≠ []) (hc : (rem.card : ℤ) < INT_MAX) :
    ∃ k, k < pool.length ∧ selectBest rem pool = some k ∧
      (∀ j, j < k → balance rem (pool.getD k qdefault) <
        balance rem (pool.getD j qdefault)) ∧
      (∀ j, j < pool.length → balance rem (pool.getD k qdefault) ≤
        balance rem (pool.getD j qdefault)) := by
  rcases selectAux_spec rem pool 0 none INT_MAX with
    ⟨_, hall⟩ | ⟨k, hk, heq, _, hfirst, hmin⟩
  · exfalso
    have h0 : 0 < pool.length := List.length_pos.mpr hp
    have hge := hall 0 h0
    have hb := balance_le_card rem (pool.getD 0 qdefault)
    omega
  · refine ⟨k, hk, ?_, hfirst, hmin⟩
    unfold selectBest
    rw [heq]
    simp

/-- Witness for C1 at `rem = {1,2,3,4}`, `pool = [qB, qA]`: the loop keeps
`qB` (score 2) and then replaces it by `qA` (score 0), so index 1 wins. -/
theorem selection_first_strict_min_witness :
    (1 < ({1, 2, 3, 4} : Finset ℤ).card ∧ [qB, qA] ≠ ([] : List Question) ∧
      ((({1, 2, 3, 4} : Finset ℤ).card : ℤ) < INT_MAX)) ∧
    (∃ k, k < [qB, qA].length ∧ selectBest {1, 2, 3, 4} [qB, qA] = some k ∧
      (∀ j, j < k → balance {1, 2, 3, 4} ([qB, qA].getD k qdefault) <
        balance {1, 2, 3, 4} ([qB, qA].getD j qdefault)) ∧
      (∀ j, j < [qB, qA].length →
        balance {1, 2, 3, 4} ([qB, qA].getD k qdefault) ≤
        balance {1, 2, 3, 4} ([qB, qA].getD j qdefault))) :=
  ⟨⟨by decide, by decide, by decide⟩,
    selection_first_strict_min {1, 2, 3, 4} [qB, qA]
      (by decide) (by decide) (by decide)⟩

/-- C2: the builder checks its terminal cases in order: a singleton
remaining set returns the identified leaf (whatever the pool, in
particular an empty one), and otherwise an empty pool returns the
no-more-questions leaf. -/
theorem terminal_cases_order :
    (∀ (rem : Finset ℤ) (pool : List Question), rem.card = 1 →
      ∃ x, rem = {x} ∧ buildTree rem pool =
        .node (-1) ("Character identified: " ++ toString x) ∅ ∅ .null .null) ∧
    (∀ rem : Finset ℤ, rem.card ≠ 1 →
      buildTree rem [] =
        .node (-1) "No more questions. Unable to identify." ∅ ∅ .null .null) := by
  constructor
  · intro rem pool h
    obtain ⟨x, hx⟩ := Finset.card_eq_one.mp h
    exact ⟨x, hx, by rw [hx]; exact buildTree_singleton x pool⟩
  · intro rem h
    exact buildTree_noQuestions rem h

/-- Witness for C2: `{4}` with an empty pool still yields the identified
leaf, and `{1,2}` with an empty pool yields the no-more-questions leaf. -/
theorem terminal_cases_order_witness :
    (({4} : Finset ℤ).card = 1 ∧
      (∃ x, ({4} : Finset ℤ) = {x} ∧ buildTree {4} ([] : List Question) =
        .node (-1) ("Character identified: " ++ toString x) ∅ ∅ .null .null)) ∧
    (({1, 2} : Finset ℤ).card ≠ 1 ∧
      buildTree {1, 2} [] =
        .node (-1) "No more questions. Unable to identify." ∅ ∅ .null .null) :=
  ⟨⟨by decide, terminal_cases_order.1 {4} [] (by decide)⟩,
    ⟨by decide, terminal_cases_order.2 {1, 2} (by decide)⟩⟩

/-- C3: every non-terminal step builds a node copying the winning record's
id, text and full positive/negative sets, removes the winner from the pool
and recurses on the intersections; and no tree the builder produces has a
one-child internal node. -/
theorem internal_node_construction :
    (∀ (rem : Finset ℤ) (pool : List Question) (i : ℕ),
      rem.card ≠ 1 → pool ≠ [] → selectBest rem pool = some i →
      buildTree rem pool =
        .node (pool.getD i qdefault).q_id (pool.getD i qdefault).text
          (pool.getD i qdefault).positive_ids
          (pool.getD i qdefault).negative_ids
          (buildTree (rem ∩ (pool.getD i qdefault).positive_ids)
            (pool.eraseIdx i))
          (buildTree (rem ∩ (pool.getD i qdefault).negative_ids)
            (pool.eraseIdx i))) ∧
    (∀ (rem : Finset ℤ) (pool : List Question),
      noLoneChild (buildTree rem pool) = true) := by
  constructor
  · exact buildTree_step
  · intro rem pool
    exact noLoneChild_buildTreeF (pool.length + 1) rem pool (by omega)

/-- Witness for C3 at `rem = {1,2,3,4}`, `pool = [qB, qA]`, winner index 1. -/
theorem internal_node_construction_witness :
    (({1, 2, 3, 4} : Finset ℤ).card ≠ 1 ∧ [qB, qA] ≠ ([] : List Question) ∧
      selectBest {1, 2, 3, 4} [qB, qA] = some 1) ∧
    buildTree {1, 2, 3, 4} [qB, qA] =
      .node ([qB, qA].getD 1 qdefault).q_id ([qB, qA].getD 1 qdefault).text
        ([qB, qA].getD 1 qdefault).positive_ids
        ([qB, qA].getD 1 qdefault).negative_ids
        (buildTree ({1, 2, 3, 4} ∩ ([qB, qA].getD 1 qdefault).positive_ids)
          ([qB, qA].eraseIdx 1))
        (buildTree ({1, 2, 3, 4} ∩ ([qB, qA].getD 1 qdefault).negative_ids)
          ([qB, qA].eraseIdx 1)) ∧
    noLoneChild (buildTree {1, 2, 3, 4} [qB, qA]) = true :=
  ⟨⟨by decide, by decide, by decide⟩,
    internal_node_construction.1 {1, 2, 3, 4} [qB, qA] 1
      (by decide) (by decide) (by decide),
    internal_node_construction.2 {1, 2, 3, 4} [qB, qA]⟩

/-- C4: at any non-null (in particular non-leaf) root,
`setAnswer true` removes the current root's full negative set from
`characters` and then descends to the left child, and `setAnswer false`
removes the positive set and descends right; the update uses the
pre-descent root's sets. -/
theorem setAnswer_updates_then_descends (st : GameState) (i : ℤ) (t : String)
    (pos neg : Finset ℤ) (l r : QTreeP) (h : st.root = .node i t pos neg l r) :
    setAnswer st true = some ⟨l, st.characters \ neg⟩ ∧
    setAnswer st false = some ⟨r, st.characters \ pos⟩ :=
  setAnswer_node st i t pos neg l r h

/-- Witness for C4 at the sample session `st0`. -/
theorem setAnswer_updates_then_descends_witness :
    st0.root = .node 1 "Does it wear a crown?" {1, 2} {3, 4} leafId1 leafId1 ∧
    (setAnswer st0 true = some ⟨leafId1, st0.characters \ {3, 4}⟩ ∧
      setAnswer st0 false = some ⟨leafId1, st0.characters \ {1, 2}⟩) :=
  ⟨rfl, setAnswer_updates_then_descends st0 1 "Does it wear a crown?"
    {1, 2} {3, 4} leafId1 leafId1 rfl⟩

/-- C5: `characters` starts as the full 32-ID universe and every
successful `setAnswer` step shrinks it: the new remaining set is a subset
of the old one, so its size never grows within a session. -/
theorem remaining_monotone :
    (∀ qs : List Question, (initState qs).characters = fullCharacters) ∧
    (∀ (st : GameState) (a : Bool) (st' : GameState),
      setAnswer st a = some st' → st'.characters ⊆ st.characters) := by
  constructor
  · intro qs; rfl
  · intro st a st' h
    rcases hr : st.root with _ | ⟨i, t, pos, neg, l, r⟩
    · unfold setAnswer at h
      rw [hr] at h
      simp at h
    · obtain ⟨ht, hf⟩ := setAnswer_node st i t pos neg l r hr
      cases a
      · rw [hf] at h
        rw [← Option.some.inj h]
        exact Finset.sdiff_subset
      · rw [ht] at h
        rw [← Option.some.inj h]
        exact Finset.sdiff_subset

/-- Witness for C5: a fresh session starts at the full universe, and one
yes-step from `st0` shrinks `{1,2,3,4}` to a subset. -/
theorem remaining_monotone_witness :
    (initState []).characters = fullCharacters ∧
    setAnswer st0 true = some stYes ∧ stYes.characters ⊆ st0.characters :=
  ⟨remaining_monotone.1 [], by decide,
    remaining_monotone.2 st0 true stYes (by decide)⟩

/-- C6 (code bug): `getCharacter` branches on the size of `characters`,
but the `size > 1` branch of the C++ is a bare `return;` inside a function
returning `Character` — it produces no usable value (modelled `none`),
where the claim requires a usable Undetermined outcome.  The other two
branches match the claim: a singleton resolves its sole ID, the empty set
resolves the sentinel ID 0 (a lookup that the resolver rejects as not
found) rather than silently defaulting to a real character. -/
theorem getCharacter_branches :
    getCharacter ⟨.null, {1, 2}⟩ = none ∧
    getCharacter ⟨.null, {5}⟩ = some 5 ∧
    getCharacter ⟨.null, (∅ : Finset ℤ)⟩ = some 0 := by
  decide

/-- C7 (counterexample): invoked on the empty remaining set with the
non-empty pool `[q1ex]`, the builder does NOT return an empty-set terminal
leaf: it falls through to selection and returns an internal node carrying
`q1ex` (question id 7) with two non-null children. -/
theorem empty_remaining_not_guarded :
    buildTree (∅ : Finset ℤ) [q1ex] =
      .node 7 "Is it character 1?" {1} {2}
        (.node (-1) "No more questions. Unable to identify." ∅ ∅ .null .null)
        (.node (-1) "No more questions. Unable to identify." ∅ ∅ .null .null) ∧
    isLeaf (buildTree (∅ : Finset ℤ) [q1ex]) = false := by
  decide

/-- C7 (amended): there is no explicit empty-set terminal case.  With an
empty remaining set and a non-empty pool every record scores 0, so the
builder selects the first record of the pool, builds an internal node from
it and recurses on the empty set with the tail pool; only once the pool is
exhausted does it return the generic no-more-questions leaf. -/
theorem empty_remaining_falls_through (pool : List Question)
    (hp : pool ≠ []) :
    selectBest (∅ : Finset ℤ) pool = some 0 ∧
    buildTree (∅ : Finset ℤ) pool =
      .node (pool.getD 0 qdefault).q_id (pool.getD 0 qdefault).text
        (pool.getD 0 qdefault).positive_ids (pool.getD 0 qdefault).negative_ids
        (buildTree ∅ (pool.eraseIdx 0)) (buildTree ∅ (pool.eraseIdx 0)) ∧
    buildTree (∅ : Finset ℤ) [] =
      .node (-1) "No more questions. Unable to identify." ∅ ∅ .null .null := by
  have hsel := selectBest_empty pool hp
  refine ⟨hsel, ?_, ?_⟩
  · have hstep := buildTree_step ∅ pool 0 (by decide) hp hsel
    rw [hstep]
    simp only [Finset.empty_inter]
  · exact buildTree_noQuestions ∅ (by decide)

/-- Witness for the amended C7 at `pool = [q1ex]`. -/
theorem empty_remaining_falls_through_witness :
    [q1ex] ≠ ([] : List Question) ∧
    (selectBest (∅ : Finset ℤ) [q1ex] = some 0 ∧
      buildTree (∅ : Finset ℤ) [q1ex] =
        .node ([q1ex].getD 0 qdefault).q_id ([q1ex].getD 0 qdefault).text
          ([q1ex].getD 0 qdefault).positive_ids
          ([q1ex].getD 0 qdefault).negative_ids
          (buildTree ∅ ([q1ex].eraseIdx 0)) (buildTree ∅ ([q1ex].eraseIdx 0)) ∧
      buildTree (∅ : Finset ℤ) [] =
        .node (-1) "No more questions. Unable to identify." ∅ ∅ .null .null) :=
  ⟨by decide, empty_remaining_falls_through [q1ex] (by decide)⟩

/-- C8: the builder is a pure deterministic function of the remaining set
and the ordered pool — purity holds by construction in this embedding
(no randomness, no global state appears in `buildTree`), and identical
inputs yield structurally identical trees. -/
theorem buildTree_deterministic (r₁ r₂ : Finset ℤ) (p₁ p₂ : List Question)
    (hr : r₁ = r₂) (hp : p₁ = p₂) : buildTree r₁ p₁ = buildTree r₂ p₂ := by
  rw [hr, hp]

/-- Witness for C8 at `rem = {1,2}`, `pool = [q1ex]`. -/
theorem buildTree_deterministic_witness :
    ({1, 2} : Finset ℤ) = {1, 2} ∧ [q1ex] = [q1ex] ∧
    buildTree {1, 2} [q1ex] = buildTree {1, 2} [q1ex] :=
  ⟨rfl, rfl, buildTree_deterministic {1, 2} {1, 2} [q1ex] [q1ex] rfl rfl⟩

/-- C9: with a non-empty pool (and a remaining set of realistic size),
every balance score is a non-negative integer strictly below the `INT_MAX`
initial minimum, so the scoring loop always selects a record and the
defensive unable-to-differentiate leaf is never returned by a selection
step. -/
theorem selection_always_succeeds (rem : Finset ℤ) (pool : List Question)
    (hp : pool ≠ []) (hc : (rem.card : ℤ) < INT_MAX) :
    (∀ q ∈ pool, 0 ≤ balance rem q ∧ balance rem q < INT_MAX) ∧
    (selectBest rem pool).isSome = true ∧
    (rem.card ≠ 1 →
      buildTree rem pool ≠
        .node (-1) "Unable to further differentiate." ∅ ∅ .null .null) := by
  have hq : ∀ q ∈ pool, 0 ≤ balance rem q ∧ balance rem q < INT_MAX := by
    intro q _
    exact ⟨balance_nonneg rem q, lt_of_le_of_lt (balance_le_card rem q) hc⟩
  have hsome : (selectBest rem pool).isSome = true := by
    rcases selectAux_spec rem pool 0 none INT_MAX with
      ⟨_, hall⟩ | ⟨k, _, heq, _, _, _⟩
    · exfalso
      have h0 : 0 < pool.length := List.length_pos.mpr hp
      have hge := hall 0 h0
      have hb := balance_le_card rem (pool.getD 0 qdefault)
      omega
    · unfold selectBest
      rw [heq]
      rfl
  refine ⟨hq, hsome, ?_⟩
  intro h1
  obtain ⟨i, hi⟩ := Option.isSome_iff_exists.mp hsome
  rw [buildTree_step rem pool i h1 hp hi]
  intro hcontra
  injection hcontra with e1 e2 e3 e4 e5 e6
  exact buildTreeF_ne_null _ (Nat.succ_pos _) _ _ e5

/-- Witness for C9 at `rem = {1,2}`, `pool = [q1ex]`. -/
theorem selection_always_succeeds_witness :
    ([q1ex] ≠ ([] : List Question) ∧
      ((({1, 2} : Finset ℤ).card : ℤ) < INT_MAX)) ∧
    ((∀ q ∈ [q1ex], 0 ≤ balance {1, 2} q ∧ balance {1, 2} q < INT_MAX) ∧
      (selectBest {1, 2} [q1ex]).isSome = true ∧
      (({1, 2} : Finset ℤ).card ≠ 1 →
        buildTree {1, 2} [q1ex] ≠
          .node (-1) "Unable to further differentiate." ∅ ∅ .null .null)) :=
  ⟨⟨by decide, by decide⟩,
    selection_always_succeeds {1, 2} [q1ex] (by decide) (by decide)⟩

/-- C10: the builder terminates on every input: the recursion strictly
shrinks the pool, so any fuel above the pool length computes the same tree
(`buildTree` itself), and the height of the result is bounded by the pool
length plus the final leaf. -/
theorem buildTree_terminates :
    (∀ (f : ℕ) (rem : Finset ℤ) (pool : List Question), pool.length < f →
      buildTreeF f rem pool = buildTree rem pool) ∧
    (∀ (rem : Finset ℤ) (pool : List Question),
      qheight (buildTree rem pool) ≤ pool.length + 1) := by
  constructor
  · intro f rem pool h
    exact buildTreeF_eq_buildTree rem pool h
  · intro rem pool
    exact qheight_buildTreeF (pool.length + 1) rem pool (by omega)

/-- Witness for C10 at fuel 5 over `rem = {1,2}`, `pool = [q1ex]`. -/
theorem buildTree_terminates_witness :
    buildTreeF 5 ({1, 2} : Finset ℤ) [q1ex] = buildTree {1, 2} [q1ex] ∧
    qheight (buildTree ({1, 2} : Finset ℤ) [q1ex]) ≤ [q1ex].length + 1 :=
  ⟨buildTree_terminates.1 5 {1, 2} [q1ex] (by decide),
    buildTree_terminates.2 {1, 2} [q1ex]⟩
